import Mathlib

/-!
Verification development for the word-cloud pipeline in
`wordcloud_minimal.py` (frequency extraction, record-store merge,
frequency cache, image synthesis).

Texts are modelled as lists of code points (`List Nat`), restricted to the
ASCII range for the character classes (the source compiles the pattern with
`re.UNICODE`; every input appearing in the claims is ASCII, and the
structure of the tokenizer is unchanged by widening the letter class).
-/

namespace Wordcloud

/-- A code point is a word character for the pattern `\w`
(ASCII letters, digits, underscore). -/
def isWordChar (c : Nat) : Bool :=
  (65 ≤ c && c ≤ 90) || (97 ≤ c && c ≤ 122) || (48 ≤ c && c ≤ 57) || c == 95

/-- A code point matched by the character class of the source pattern
`[\w'-]` : a word character, an apostrophe (39) or a hyphen (45). -/
def isTokenChar (c : Nat) : Bool :=
  isWordChar c || c == 39 || c == 45

/-- ASCII decimal digit, the class Python `str.isdigit` tests in the
ASCII range. -/
def isDigitChar (c : Nat) : Bool :=
  48 ≤ c && c ≤ 57

/-- Embedding of Python `str.lower` on the ASCII range: shift an
uppercase letter down by 32, leave every other code point alone. -/
def asciiLower (c : Nat) : Nat :=
  if 65 ≤ c ∧ c ≤ 90 then c + 32 else c

/-- Code points of a Lean string literal, used to spell concrete texts. -/
def str (s : String) : List Nat :=
  s.data.map Char.toNat

/-- Maximal runs of `isTokenChar` characters, accumulating the current run
in reverse in `acc`.  A character outside the class closes the run. -/
def runsAux : List Nat → List Nat → List (List Nat)
  | [], acc => if acc.isEmpty then [] else [acc.reverse]
  | c :: rest, acc =>
    if isTokenChar c then runsAux rest (c :: acc)
    else if acc.isEmpty then runsAux rest [] else acc.reverse :: runsAux rest []

/-- Maximal runs of characters of the class `[\w'-]` in a text. -/
def tokenRuns (s : List Nat) : List (List Nat) :=
  runsAux s []

/-- Strip the leading and trailing non-word characters (apostrophes and
hyphens) of a run. -/
def trimEnds (r : List Nat) : List Nat :=
  ((r.dropWhile (fun c => !isWordChar c)).reverse.dropWhile
      (fun c => !isWordChar c)).reverse

/-- Embedding of `re.findall(r"\b[\w'-]{3,}\b", s)`.

Derivation from the pattern's semantics: a match must start at a `\b`
boundary, greedily take 3 or more `[\w'-]` characters and end at a `\b`
boundary, backtracking only on the final boundary.  Every character
outside the class `[\w'-]` is a non-word character, so matches live inside
the maximal runs of `[\w'-]` characters.  Inside one run, the first
position carrying a boundary is the first word character (every earlier
run character is an apostrophe or hyphen next to another non-word
character), and the greedy backtracking stops at the last position
carrying a boundary, which is one past the last word character.  Positions
after that last boundary carry no boundary at all, so the run yields no
further match.  Hence per run: trim the non-word ends and keep the core
when it still has at least 3 characters. -/
def findTokens (s : List Nat) : List (List Nat) :=
  (tokenRuns s).filterMap fun r =>
    let t := trimEnds r
    if 3 ≤ t.length then some t else none

/-- Python `str.isdigit` on a token: non-empty and all decimal digits. -/
def isPyDigit (t : List Nat) : Bool :=
  !t.isEmpty && t.all isDigitChar

/-- The stopword set `_get_stopwords` of the source, verbatim. -/
def stopStrings : List String :=
  ["the", "and", "for", "with", "that", "this", "from", "using", "use",
   "research", "study", "method", "results", "analysis", "based", "data",
   "paper", "also", "can", "will", "these", "such", "which", "our",
   "their", "between", "than"]

/-- The stopword set as code-point lists. -/
def STOP : List (List Nat) :=
  stopStrings.map str

/-- Token filter of `load_records_and_build`: skip a token that is a
stopword or purely numeric (`if w in STOP or w.isdigit(): continue`). -/
def keepToken (t : List Nat) : Bool :=
  !STOP.contains t && !isPyDigit t

/-- Tokenize one text the way `load_records_and_build` does: lower-case,
find the word-boundary tokens, drop stopwords and purely numeric tokens. -/
def extractTokens (txt : List Nat) : List (List Nat) :=
  (findTokens (txt.map asciiLower)).filter keepToken

/-- One bump of a Python `Counter`: increment the count of `w`, inserting
the key at the end on first occurrence (Python dicts keep insertion
order). -/
def bump (m : List (List Nat × Nat)) (w : List Nat) : List (List Nat × Nat) :=
  match m with
  | [] => [(w, 1)]
  | (k, v) :: rest => if k = w then (k, v + 1) :: rest else (k, v) :: bump rest w

/-- Count a token sequence into an insertion-ordered association list, the
model of a Python `Counter` built by repeated `counter[w] += 1`. -/
def buildCounter (ws : List (List Nat)) : List (List Nat × Nat) :=
  ws.foldl bump []

/-- Lookup a `Counter`: a missing key counts 0. -/
def count (m : List (List Nat × Nat)) (w : List Nat) : Nat :=
  match m with
  | [] => 0
  | (k, v) :: rest => if k = w then v else count rest w

/-- One bibliographic record with the four columns of the record store. -/
structure Record where
  id : String
  title : String
  abstract : String
  keywords : String
  deriving DecidableEq, Repr

/-- The text unit one record contributes: `abstract + ' ' + keywords`. -/
def recordText (r : Record) : List Nat :=
  str r.abstract ++ [32] ++ str r.keywords

/-- Embedding of `load_records_and_build`: walk the records in order and
count every surviving token of each record's text unit into one counter. -/
def load_records_and_build (records : List Record) : List (List Nat × Nat) :=
  buildCounter (records.flatMap fun r => extractTokens (recordText r))

/-- Space-join a list of tokens: the text that consists of the extractor's
own output tokens (a construction of the spec's idempotence property, not
of the source). -/
def joinSpace : List (List Nat) → List Nat
  | [] => []
  | [t] => t
  | t :: t' :: ts => t ++ 32 :: joinSpace (t' :: ts)

/-! ## Frequency cache (`load_frequencies` / `save_frequencies`)

The cache file is modelled by the outcome of opening it and running
`json.load` over its contents: the file can be absent, unreadable (the
open fails or the contents are not valid JSON, in which case `json.load`
raises), or parsed into a JSON value.  Only the JSON shapes the program
distinguishes are modelled: numbers, objects, and everything else. -/

/-- A parsed JSON value, to the depth the program inspects it. -/
inductive JVal where
  /-- a JSON number holding a count -/
  | num (n : Nat)
  /-- a JSON object, as an ordered association list -/
  | dict (entries : List (String × JVal))
  /-- any other JSON value (array, string, boolean, null) -/
  | other

/-- Python dict lookup `data.get(k)` on the entries of a JSON object. -/
def jget : List (String × JVal) → String → Option JVal
  | [], _ => none
  | (k, v) :: rest, key => if k = key then some v else jget rest key

/-- The state of the cache file as seen by `load_frequencies`. -/
inductive CacheFile where
  /-- `freq_path.exists()` is false -/
  | missing
  /-- the file exists but opening it fails or `json.load` raises -/
  | unreadable
  /-- the file exists and `json.load` returns `data` -/
  | parsed (data : JVal)

/-- Outcome of a call to `load_frequencies`. -/
inductive LoadResult where
  /-- the call returns `Counter(terms)` for this JSON value `terms` -/
  | ok (terms : JVal)
  /-- an exception escapes the call (it installs no handler) -/
  | error

/-- Embedding of `load_frequencies`: a missing file yields an empty
counter; otherwise `json.load` runs with no surrounding handler, so an
unreadable or malformed file raises; a parsed value that is not a dict,
or a dict without a `terms` key, yields an empty counter; otherwise the
`terms` value is returned. -/
def load_frequencies : CacheFile → LoadResult
  | .missing => .ok (.dict [])
  | .unreadable => .error
  | .parsed (.dict es) => .ok ((jget es "terms").getD (.dict []))
  | .parsed _ => .ok (.dict [])

/-- A term-frequency mapping encoded as JSON object entries. -/
def encodeTerms (m : List (String × Nat)) : List (String × JVal) :=
  m.map fun p => (p.1, JVal.num p.2)

/-- Sum of the counts of a mapping, Python `sum(counter.values())`. -/
def sumCounts (m : List (String × Nat)) : Nat :=
  (m.map Prod.snd).sum

/-- The JSON object `save_frequencies` writes:
`{'total_terms': sum(counter.values()), 'terms': dict(counter)}`. -/
def savePayload (m : List (String × Nat)) : List (String × JVal) :=
  [("total_terms", .num (sumCounts m)), ("terms", .dict (encodeTerms m))]

/-- Embedding of `save_frequencies`: the file afterwards parses to the
payload (the `json.dump`/`json.load` round trip of this payload is the
identity: keys are strings and values integers). -/
def save_frequencies (m : List (String × Nat)) : CacheFile :=
  .parsed (.dict (savePayload m))

/-- Association lookup in a `List (String × Nat)` mapping. -/
def lookupCount : List (String × Nat) → String → Option Nat
  | [], _ => none
  | (k, v) :: rest, key => if k = key then some v else lookupCount rest key

/-! ## Selection between cache and extraction (`main`) -/

/-- What `main` does with the counter between loading and rendering. -/
inductive RunChoice where
  /-- the cached term mapping is handed on, extraction never runs -/
  | fromCache (terms : List (String × JVal))
  /-- extraction ran over the record store and its counter is handed on -/
  | fromStore (m : List (List Nat × Nat))
  /-- the counter is empty: `main` prints the no-input message and
  returns 1 instead of rendering -/
  | noInput
  /-- an exception escapes `main` -/
  | raised

/-- Wrapping a loaded JSON value in `Counter(...)`: a dict gives its
entries, a number raises `TypeError`, any other value is out of the
shapes the program ever feeds it (modelled as raising, as `Counter` of a
non-iterable does). -/
def termsCounter : JVal → Option (List (String × JVal))
  | .dict es => some es
  | _ => none

/-- The `else` branch of `main`'s selection: no usable cache counter, so
extraction runs over the record store when the store file exists
(`none` models a missing `records.csv`); an empty final counter is the
reported no-input condition. -/
def storeBranch : Option (List Record) → RunChoice
  | some recs =>
    if (load_records_and_build recs).isEmpty then .noInput
    else .fromStore (load_records_and_build recs)
  | none => .noInput

/-- Embedding of `main`'s counter selection (lines 310-321): if the cache
file exists it is loaded — an exception there escapes `main`; a non-empty
loaded counter is used as is, otherwise the store branch runs. -/
def chooseCounter (cache : CacheFile) (store : Option (List Record)) : RunChoice :=
  match cache with
  | .missing => storeBranch store
  | c =>
    match load_frequencies c with
    | .error => .raised
    | .ok j =>
      match termsCounter j with
      | none => .raised
      | some es => if es.isEmpty then storeBranch store else .fromCache es

/-! ## Record store merge (`merge_new_entries_into_records`)

The store file is modelled as `Option (List Record)`: `none` is a missing
`records.csv`, `some rows` is an existing file carrying the header
`id,title,abstract,keywords` and the given rows (both writers emit that
four-column header: `DataFrame.to_csv` and `csv.DictWriter.writeheader`).
The pandas path and the csv fallback compute the same store contents at
this level of abstraction, so one function embeds both. -/

/-- Ids of a row list, in order. -/
def idsOf (l : List Record) : List String :=
  l.map Record.id

/-- One step of the dict comprehension `{e['id']: e for e in new_entries}`:
assigning to a present key overwrites its value in place, a fresh key is
appended (Python dicts keep insertion order, first assignment fixes the
position, the last assignment fixes the value). -/
def dictInsert (m : List (String × Record)) (e : Record) : List (String × Record) :=
  if e.id ∈ m.map Prod.fst then
    m.map fun p => if p.1 = e.id then (p.1, e) else p
  else m ++ [(e.id, e)]

/-- The dict `new_by_id` built from the batch. -/
def newById (batch : List Record) : List (String × Record) :=
  batch.foldl dictInsert []

/-- The rows the merge appends: the entries of `new_by_id` whose id is not
already among the ids of the existing rows, in dict order. -/
def mergeAdded (existing batch : List Record) : List Record :=
  ((newById batch).filter fun p => p.1 ∉ idsOf existing).map Prod.snd

/-- Embedding of `merge_new_entries_into_records`: an empty batch returns
at once (line 119) without touching the file; otherwise the rows of the
existing store (or none, if the file is missing) are kept and every entry
of `new_by_id` whose id is not already present is appended, in dict
order; the file is (re)written only when something was added. -/
def merge_new_entries_into_records (store : Option (List Record))
    (batch : List Record) : Option (List Record) :=
  if batch.isEmpty then store
  else
    let existing := store.getD []
    let added := mergeAdded existing batch
    if added.isEmpty then store else some (existing ++ added)

/-- First-occurrence list of the distinct elements of a list, the order
in which a Python dict keyed by these elements lists its keys. -/
def distinctIds (l : List String) : List String :=
  l.foldl (fun acc i => if i ∈ acc then acc else acc ++ [i]) []

/-- Association lookup in the `new_by_id` dict. -/
def assocLookup : List (String × Record) → String → Option Record
  | [], _ => none
  | (k, v) :: rest, key => if k = key then some v else assocLookup rest key

/-! ## Image synthesis (`generate_images` and the fallback sizes) -/

/-- Truncation toward zero of an exact rational, the behaviour of
Python `int()` on a finite float (the float arithmetic of the source is
modelled by exact rational arithmetic). -/
def ratTrunc (q : ℚ) : ℤ :=
  if q < 0 then ⌈q⌉ else ⌊q⌋

/-- Embedding of the fallback font-size function `norm_size` (closure
over `fmin`, `fmax`): the equal-extremes guard returns 28 before any
division is formed; otherwise the affine interpolation between 18 and
120, truncated to an integer. -/
def norm_size (fmin fmax v : Nat) : ℤ :=
  if fmax = fmin then 28
  else ratTrunc (18 + ((v : ℚ) - fmin) / ((fmax : ℚ) - fmin) * (120 - 18))

/-- Python `min` on a non-empty list (the `[]` value is never reached:
the caller returns earlier when the selection is empty). -/
def listMin : List Nat → Nat
  | [] => 0
  | x :: xs => xs.foldl Nat.min x

/-- Python `max` on a non-empty list. -/
def listMax : List Nat → Nat
  | [] => 0
  | x :: xs => xs.foldl Nat.max x

/-- The outcomes of the external effects `generate_images` runs through,
each `Bool` standing for one try/except region or filesystem probe. -/
structure RenderEnv where
  /-- importing `wordcloud`, `generate_from_frequencies` and `to_file`
  all succeed -/
  wordcloudOk : Bool
  /-- the Pillow raster-to-PDF conversion of the primary path succeeds -/
  pdfConvertOk : Bool
  /-- a file already sits at the PDF output path when the call probes
  `out_pdf.exists()` (for instance left by an earlier run) -/
  pdfPreexists : Bool
  /-- Pillow imports, so the fallback renderer can run -/
  pillowOk : Bool
  /-- the fallback's own PDF export succeeds -/
  fallbackPdfOk : Bool
  deriving DecidableEq

/-- The dict `generate_images` returns. -/
structure ImageResult where
  /-- the `'png'` entry -/
  png : Option String
  /-- the `'pdf'` entry -/
  pdf : Option String
  /-- the `'method'` entry, absent on the error dict -/
  method : Option String
  /-- whether the returned dict is the `'error'` dict of the
  Pillow-unavailable branch -/
  failed : Bool
  deriving DecidableEq

/-- Embedding of `generate_images`: the primary path reports the raster
path and reports the PDF path whenever a file sits there after the
conversion attempt (`str(out_pdf) if out_pdf.exists() else None`); the
fallback reports an error dict without Pillow, a `pillow_empty` blank
render with a `None` PDF for an empty selection, and otherwise the packed
render with the same exists-probe for the PDF. -/
def generate_images (env : RenderEnv) (counter : List (List Nat × Nat))
    (outPng outPdf : String) : ImageResult :=
  if env.wordcloudOk then
    { png := some outPng
      pdf := if env.pdfConvertOk || env.pdfPreexists then some outPdf else none
      method := some "wordcloud", failed := false }
  else if !env.pillowOk then
    { png := none, pdf := none, method := none, failed := true }
  else if counter.isEmpty then
    { png := some outPng, pdf := none, method := some "pillow_empty", failed := false }
  else
    { png := some outPng
      pdf := if env.fallbackPdfOk || env.pdfPreexists then some outPdf else none
      method := some "pillow_fallback", failed := false }

/-! ## Concrete inputs named by individual claims -/

/-- The two records of the extraction scenario. -/
def c1Records : List Record :=
  [{ id := "a", title := "", abstract := "machine learning models", keywords := "ai" },
   { id := "b", title := "", abstract := "deep learning networks", keywords := "ai models" }]

/-- The mapping the scenario claims, spelled from the spec's words
(`learning:2, machine:1, models:2, deep:1, networks:1, ai:2`). -/
def c1ClaimedMapping : List (List Nat × Nat) :=
  [(str ("learning"), 2), (str ("machine"), 1), (str ("models"), 2),
   (str ("deep"), 1), (str ("networks"), 1), (str ("ai"), 2)]

/-- A record store row whose text extraction is certainly non-empty. -/
def c5Store : List Record :=
  [{ id := "r1", title := "", abstract := "alpha beta gamma", keywords := "delta" }]

/-- A run of the primary renderer in which the raster succeeds, the PDF
conversion fails, and a stale file from an earlier run still sits at the
PDF path. -/
def c8StaleEnv : RenderEnv :=
  { wordcloudOk := true, pdfConvertOk := false, pdfPreexists := true,
    pillowOk := true, fallbackPdfOk := true }

/-- A stored row with id `a`. -/
def rowA : Record := { id := "a", title := "t0", abstract := "old", keywords := "kw" }

/-- A batch entry that collides with the stored id `a`. -/
def rowA1 : Record := { id := "a", title := "t1", abstract := "first", keywords := "k1" }

/-- A second batch entry with the same id `a` and different fields. -/
def rowA2 : Record := { id := "a", title := "t2", abstract := "second", keywords := "k2" }

/-- A batch entry with the fresh id `b`. -/
def rowB : Record := { id := "b", title := "tb", abstract := "fresh", keywords := "kb" }

end Wordcloud

namespace Wordcloud

/-! ## C1: the extraction scenario -/

/-- C1 counterexample: on the scenario records the extractor counts the
token `ai` zero times — the word has only two characters and the pattern
`[\w'-]{3,}` needs three — while the claimed mapping gives `ai` the
count 2.  So the mapping the claim states is not the one the code
returns. -/
theorem c1_ai_dropped :
    count (load_records_and_build c1Records) (str ("ai")) = 0 ∧
    count c1ClaimedMapping (str ("ai")) = 2 := by
  decide

/-- C1 amended: on the scenario records `load_records_and_build` returns
exactly `machine:1, learning:2, models:2, deep:1, networks:1` (in first
occurrence order) — the claimed mapping minus `ai`, which has only two
characters and so is dropped by the three-character minimum; and every
counted token indeed has 3 or more characters, is not purely numeric and
is not a stopword. -/
theorem c1_extraction_scenario :
    load_records_and_build c1Records =
      [(str ("machine"), 1), (str ("learning"), 2), (str ("models"), 2),
       (str ("deep"), 1), (str ("networks"), 1)] ∧
    ∀ p ∈ load_records_and_build c1Records,
      3 ≤ p.1.length ∧ STOP.contains p.1 = false ∧ isPyDigit p.1 = false := by
  decide

/-! ## C3: loading the frequency cache -/

/-- C3 counterexample: `load_frequencies` installs no exception handler
around `json.load`, so a cache file that exists but is unreadable or
malformed makes the call raise — it does not return the empty mapping the
claim promises for that case. -/
theorem c3_unreadable_raises :
    load_frequencies CacheFile.unreadable = LoadResult.error ∧
    ∀ t, load_frequencies CacheFile.unreadable ≠ LoadResult.ok t := by
  exact ⟨rfl, fun t h => LoadResult.noConfusion h⟩

/-- C3 amended: a missing cache file loads as the empty mapping, and so
does a readable file whose JSON value is not an object or is an object
without a `terms` key; but a file whose contents cannot be read or parsed
raises instead of yielding the empty mapping. -/
theorem c3_load_behaviour (n : Nat) (es : List (String × JVal))
    (hterms : jget es "terms" = none) :
    load_frequencies CacheFile.missing = LoadResult.ok (.dict []) ∧
    load_frequencies (CacheFile.parsed .other) = LoadResult.ok (.dict []) ∧
    load_frequencies (CacheFile.parsed (.num n)) = LoadResult.ok (.dict []) ∧
    load_frequencies (CacheFile.parsed (.dict es)) = LoadResult.ok (.dict []) ∧
    load_frequencies CacheFile.unreadable = LoadResult.error := by
  refine ⟨rfl, rfl, rfl, ?_, rfl⟩
  simp [load_frequencies, hterms]

/-- C3 amended, witnessed at the empty object (which has no `terms`
key). -/
theorem c3_load_behaviour_witness :
    load_frequencies CacheFile.missing = LoadResult.ok (.dict []) ∧
    load_frequencies (CacheFile.parsed .other) = LoadResult.ok (.dict []) ∧
    load_frequencies (CacheFile.parsed (.num 0)) = LoadResult.ok (.dict []) ∧
    load_frequencies (CacheFile.parsed (.dict [])) = LoadResult.ok (.dict []) ∧
    load_frequencies CacheFile.unreadable = LoadResult.error :=
  c3_load_behaviour 0 [] rfl

/-! ## C4: save/load round trip -/

/-- C4: saving a mapping and loading it back returns exactly the saved
terms (key for key, count for count: looking any key up in the loaded
object yields the saved count, a missing key stays missing); the
persisted `total_terms` field holds the sum of the mapping's counts at
save time; and the load never reads it — whatever value sits under
`total_terms`, the loaded mapping is the `terms` object alone. -/
theorem c4_roundtrip (m : List (String × Nat)) (w : String) (t : JVal)
    (es : List (String × JVal)) :
    load_frequencies (save_frequencies m) = LoadResult.ok (.dict (encodeTerms m)) ∧
    jget (encodeTerms m) w = (lookupCount m w).map JVal.num ∧
    jget (savePayload m) "total_terms" = some (.num (sumCounts m)) ∧
    load_frequencies
        (CacheFile.parsed (.dict [("total_terms", t), ("terms", .dict es)])) =
      LoadResult.ok (.dict es) := by
  refine ⟨?_, ?_, ?_, ?_⟩
  · simp [load_frequencies, save_frequencies, savePayload, jget]
  · induction m with
    | nil => simp [encodeTerms, jget, lookupCount]
    | cons p rest ih =>
      by_cases h : p.1 = w
      · simp [encodeTerms, jget, lookupCount, h]
      · simpa [encodeTerms, jget, lookupCount, h] using ih
  · simp [savePayload, jget]
  · simp [load_frequencies, jget]

/-! ## C8: primary rendering with a failed vector conversion -/

/-- C8 counterexample: a primary-path run in which the raster is produced
and the PDF conversion fails, but a stale file from an earlier run sits at
the PDF path: the call reports that stale path, not the null vector path
the claim promises for every such run (`str(out_pdf) if out_pdf.exists()
else None` probes the filesystem, not the conversion's outcome). -/
theorem c8_stale_pdf_reported :
    c8StaleEnv.wordcloudOk = true ∧ c8StaleEnv.pdfConvertOk = false ∧
    (generate_images c8StaleEnv [] "nube_palabras.png" "nube_palabras.pdf").pdf =
      some "nube_palabras.pdf" := by
  decide

/-- C8 amended: in every primary-path run whose raster succeeds and whose
PDF conversion fails, provided no file already sits at the PDF path, the
call still succeeds — raster path populated, method `wordcloud`, no error
— and the vector path is reported as unavailable. -/
theorem c8_pdf_failure_nonfatal (env : RenderEnv) (counter : List (List Nat × Nat))
    (png pdf : String) (h1 : env.wordcloudOk = true)
    (h2 : env.pdfConvertOk = false) (h3 : env.pdfPreexists = false) :
    generate_images env counter png pdf =
      { png := some png, pdf := none, method := some "wordcloud", failed := false } := by
  simp [generate_images, h1, h2, h3]

/-- C8 amended, witnessed on a concrete environment. -/
theorem c8_pdf_failure_nonfatal_witness :
    generate_images
        { wordcloudOk := true, pdfConvertOk := false, pdfPreexists := false,
          pillowOk := true, fallbackPdfOk := true } [] "out.png" "out.pdf" =
      { png := some "out.png", pdf := none, method := some "wordcloud",
        failed := false } :=
  c8_pdf_failure_nonfatal _ [] "out.png" "out.pdf" rfl rfl rfl

/-! ## C9: store creation on first merge -/

theorem dictInsert_length (m : List (String × Record)) (e : Record) :
    m.length ≤ (dictInsert m e).length := by
  unfold dictInsert
  split
  · simp
  · simp

theorem newById_foldl_length (bs : List Record) :
    ∀ m : List (String × Record), m.length ≤ (bs.foldl dictInsert m).length := by
  induction bs with
  | nil => intro m; simp
  | cons b bs ih =>
    intro m
    exact le_trans (dictInsert_length m b) (ih (dictInsert m b))

theorem newById_ne_nil (batch : List Record) (h : batch ≠ []) :
    newById batch ≠ [] := by
  obtain ⟨b, bs, rfl⟩ := List.exists_cons_of_ne_nil h
  have h1 : 1 ≤ (newById (b :: bs)).length := by
    have h2 : (dictInsert [] b).length = 1 := by simp [dictInsert]
    calc 1 = (dictInsert [] b).length := h2.symm
      _ ≤ _ := newById_foldl_length bs (dictInsert [] b)
  exact List.ne_nil_of_length_pos h1

theorem mergeAdded_nil_store (batch : List Record) :
    mergeAdded [] batch = (newById batch).map Prod.snd := by
  simp [mergeAdded, idsOf]

/-- C9 counterexample: merging an empty batch into a missing store
returns before any write (`if not new_entries: return`), so the store
file is not created, while the claim says the four-column store is
created even when the batch is empty. -/
theorem c9_empty_batch_no_store :
    merge_new_entries_into_records none [] = none := rfl

/-- C9 amended: when the store file does not yet exist and the batch is
non-empty, the merge creates the store (with the four-column schema
`id,title,abstract,keywords` — both writers emit that header) holding the
deduplicated batch entries; an empty batch returns early and creates
nothing. -/
theorem c9_creates_store (batch : List Record) (h : batch ≠ []) :
    merge_new_entries_into_records none batch =
      some ((newById batch).map Prod.snd) ∧
    (newById batch).map Prod.snd ≠ [] := by
  have hne : (newById batch).map Prod.snd ≠ [] := by
    intro hcon
    exact newById_ne_nil batch h (List.map_eq_nil_iff.mp hcon)
  refine ⟨?_, hne⟩
  unfold merge_new_entries_into_records
  rw [if_neg (by simpa [List.isEmpty_iff] using h)]
  show (if (mergeAdded [] batch).isEmpty = true then none
        else some ([] ++ mergeAdded [] batch)) = _
  rw [mergeAdded_nil_store]
  rw [if_neg (by simpa [List.isEmpty_iff] using hne)]
  simp

/-- C9 amended, witnessed on a one-element batch over a missing store. -/
theorem c9_creates_store_witness :
    merge_new_entries_into_records none
        [{ id := "x", title := "t", abstract := "a", keywords := "k" }] =
      some [{ id := "x", title := "t", abstract := "a", keywords := "k" }] :=
  (c9_creates_store
    [{ id := "x", title := "t", abstract := "a", keywords := "k" }]
    (by decide)).1

/-! ## C6: fallback font sizes -/

theorem foldl_min_const (xs : List Nat) (a : Nat) (h : ∀ x ∈ xs, x = a) :
    xs.foldl Nat.min a = a := by
  induction xs with
  | nil => rfl
  | cons x xs ih =>
    have hx : x = a := h x (by simp)
    rw [List.foldl_cons, hx, show Nat.min a a = a by simp]
    exact ih fun y hy => h y (by simp [hy])

theorem foldl_max_const (xs : List Nat) (a : Nat) (h : ∀ x ∈ xs, x = a) :
    xs.foldl Nat.max a = a := by
  induction xs with
  | nil => rfl
  | cons x xs ih =>
    have hx : x = a := h x (by simp)
    rw [List.foldl_cons, hx, show Nat.max a a = a by simp]
    exact ih fun y hy => h y (by simp [hy])

/-- C6: over any non-empty selection, if all selected terms carry the same
count then the selection's maximum equals its minimum and `norm_size`
returns 28 for every selected term (the guard fires before any division
is formed); and when the maximum exceeds the minimum, the size of every
selected term is the claimed truncated interpolation
`int(18 + (count - min) / (max - min) * (120 - 18))`. -/
theorem c6_uniform_font_size (top : List (String × Nat)) (hne : top ≠ []) :
    ((∀ p ∈ top, ∀ q ∈ top, p.2 = q.2) →
      ∀ p ∈ top,
        norm_size (listMin (top.map Prod.snd)) (listMax (top.map Prod.snd)) p.2 = 28) ∧
    (listMin (top.map Prod.snd) < listMax (top.map Prod.snd) →
      ∀ p ∈ top,
        norm_size (listMin (top.map Prod.snd)) (listMax (top.map Prod.snd)) p.2 =
          ratTrunc (18 + ((p.2 : ℚ) - listMin (top.map Prod.snd)) /
            ((listMax (top.map Prod.snd) : ℚ) - listMin (top.map Prod.snd)) *
            (120 - 18))) := by
  constructor
  · intro hall p _
    obtain ⟨q, qs, rfl⟩ := List.exists_cons_of_ne_nil hne
    have hconst : ∀ x ∈ qs.map Prod.snd, x = q.2 := by
      intro x hx
      obtain ⟨r, hr, rfl⟩ := List.mem_map.mp hx
      exact (hall r (by simp [hr]) q (by simp)).symm ▸ rfl
    have hmin : listMin ((q :: qs).map Prod.snd) = q.2 := by
      simp only [List.map_cons, listMin]
      exact foldl_min_const _ _ hconst
    have hmax : listMax ((q :: qs).map Prod.snd) = q.2 := by
      simp only [List.map_cons, listMax]
      exact foldl_max_const _ _ hconst
    rw [hmin, hmax, norm_size, if_pos rfl]
  · intro hlt p _
    rw [norm_size, if_neg (Nat.ne_of_gt hlt)]

/-- C6, witnessed on a two-term selection of equal counts. -/
theorem c6_uniform_font_size_witness :
    norm_size (listMin (([("a", 5), ("b", 5)] : List (String × Nat)).map Prod.snd))
      (listMax (([("a", 5), ("b", 5)] : List (String × Nat)).map Prod.snd)) 5 = 28 :=
  (c6_uniform_font_size [("a", 5), ("b", 5)] (by decide)).1 (by decide)
    ("a", 5) (by decide)

end Wordcloud

namespace Wordcloud

/-! ## Shared lemmas on the merge's dict and id bookkeeping -/

theorem dictInsert_snd_id (m : List (String × Record)) (e : Record)
    (hinv : ∀ p ∈ m, p.2.id = p.1) :
    ∀ p ∈ dictInsert m e, p.2.id = p.1 := by
  intro p hp
  unfold dictInsert at hp
  split at hp
  · obtain ⟨q, hq, hpe⟩ := List.mem_map.mp hp
    by_cases h : q.1 = e.id
    · rw [if_pos h] at hpe
      rw [← hpe]
      exact h.symm
    · rw [if_neg h] at hpe
      rw [← hpe]
      exact hinv q hq
  · rcases List.mem_append.mp hp with h | h
    · exact hinv p h
    · rcases List.mem_singleton.mp h with rfl
      rfl

theorem foldl_dictInsert_snd_id (bs : List Record) :
    ∀ m : List (String × Record), (∀ p ∈ m, p.2.id = p.1) →
      ∀ p ∈ bs.foldl dictInsert m, p.2.id = p.1 := by
  induction bs with
  | nil => intro m h; exact h
  | cons b bs ih =>
    intro m h
    exact ih (dictInsert m b) (dictInsert_snd_id m b h)

theorem newById_snd_id (batch : List Record) :
    ∀ p ∈ newById batch, p.2.id = p.1 :=
  foldl_dictInsert_snd_id batch [] (by intro p hp; cases hp)

theorem dictInsert_keys (m : List (String × Record)) (e : Record) :
    (dictInsert m e).map Prod.fst =
      if e.id ∈ m.map Prod.fst then m.map Prod.fst
      else m.map Prod.fst ++ [e.id] := by
  unfold dictInsert
  split
  · rw [List.map_map]
    apply List.map_congr_left
    intro p _
    by_cases h : p.1 = e.id
    · simp [h]
    · simp [h]
  · rw [List.map_append]
    rfl

theorem foldl_dictInsert_keys (bs : List Record) :
    ∀ m : List (String × Record),
      (bs.foldl dictInsert m).map Prod.fst =
        bs.foldl (fun acc r => if r.id ∈ acc then acc else acc ++ [r.id])
          (m.map Prod.fst) := by
  induction bs with
  | nil => intro m; rfl
  | cons b bs ih =>
    intro m
    rw [List.foldl_cons, List.foldl_cons, ih (dictInsert m b), dictInsert_keys]

theorem newById_keys (batch : List Record) :
    (newById batch).map Prod.fst = distinctIds (idsOf batch) := by
  unfold newById distinctIds idsOf
  rw [foldl_dictInsert_keys batch [], List.foldl_map]
  rfl

theorem distinctIds_foldl_nodup (l : List String) :
    ∀ acc : List String, acc.Nodup →
      (l.foldl (fun acc i => if i ∈ acc then acc else acc ++ [i]) acc).Nodup := by
  induction l with
  | nil => intro acc h; exact h
  | cons x l ih =>
    intro acc h
    rw [List.foldl_cons]
    by_cases hx : x ∈ acc
    · rw [if_pos hx]; exact ih acc h
    · rw [if_neg hx]
      exact ih _ (by simp [List.nodup_append, h, hx])

theorem distinctIds_nodup (l : List String) : (distinctIds l).Nodup :=
  distinctIds_foldl_nodup l [] List.nodup_nil

theorem map_snd_filter_ids (m : List (String × Record)) (ids : List String)
    (hinv : ∀ p ∈ m, p.2.id = p.1) :
    ((m.filter fun p => p.1 ∉ ids).map Prod.snd).map Record.id =
      (m.map Prod.fst).filter fun k => k ∉ ids := by
  induction m with
  | nil => rfl
  | cons p rest ih =>
    have hp : p.2.id = p.1 := hinv p (by simp)
    have ihr := ih fun q hq => hinv q (by simp [hq])
    simp only [decide_not] at ihr
    by_cases h : p.1 ∈ ids
    · simp [List.filter_cons, h, hp, ihr]
    · simp [List.filter_cons, h, hp, ihr]

theorem mergeAdded_ids (store batch : List Record) :
    idsOf (mergeAdded store batch) =
      (distinctIds (idsOf batch)).filter fun k => k ∉ idsOf store := by
  unfold mergeAdded
  show ((_ : List Record).map Record.id) = _
  rw [map_snd_filter_ids (newById batch) (idsOf store) (newById_snd_id batch),
    newById_keys]

theorem merge_some (store batch : List Record) :
    merge_new_entries_into_records (some store) batch =
      some (store ++ mergeAdded store batch) := by
  unfold merge_new_entries_into_records
  by_cases hb : batch.isEmpty
  · rw [if_pos hb]
    have hbn : batch = [] := List.isEmpty_iff.mp hb
    subst hbn
    rw [show mergeAdded store [] = [] from rfl, List.append_nil]
  · rw [if_neg hb]
    show (if (mergeAdded store batch).isEmpty = true then some store
          else some (store ++ mergeAdded store batch)) = _
    by_cases ha : (mergeAdded store batch).isEmpty
    · rw [if_pos ha]
      have han : mergeAdded store batch = [] := List.isEmpty_iff.mp ha
      rw [han, List.append_nil]
    · rw [if_neg ha]

end Wordcloud

namespace Wordcloud

/-! ## C2: merge invariants -/

/-- C2: for every existing store whose rows satisfy the store invariant
(pairwise distinct ids) and every batch, the merge rewrites the file as
the old rows followed by the appended rows; the appended ids are exactly
the distinct batch ids that did not occur in the store, in batch
first-occurrence order; the result has no two rows with the same id; its
length is the old length plus the number of genuinely new distinct ids;
and no appended row carries a stored id — so the pre-existing rows keep
their order and contents and a colliding entry is dropped without
overwriting anything. -/
theorem c2_merge_invariants (store batch : List Record)
    (hnd : (idsOf store).Nodup) :
    merge_new_entries_into_records (some store) batch =
      some (store ++ mergeAdded store batch) ∧
    idsOf (mergeAdded store batch) =
      (distinctIds (idsOf batch)).filter (fun k => k ∉ idsOf store) ∧
    (idsOf (store ++ mergeAdded store batch)).Nodup ∧
    (store ++ mergeAdded store batch).length =
      store.length +
        ((distinctIds (idsOf batch)).filter (fun k => k ∉ idsOf store)).length ∧
    ∀ r ∈ mergeAdded store batch, r.id ∉ idsOf store := by
  have hids := mergeAdded_ids store batch
  have hdisj : ∀ r ∈ mergeAdded store batch, r.id ∉ idsOf store := by
    intro r hr
    have hmem : r.id ∈ idsOf (mergeAdded store batch) :=
      List.mem_map_of_mem Record.id hr
    rw [hids] at hmem
    have := List.of_mem_filter hmem
    simpa using this
  refine ⟨merge_some store batch, hids, ?_, ?_, hdisj⟩
  · show ((store ++ mergeAdded store batch).map Record.id).Nodup
    rw [List.map_append, List.nodup_append]
    refine ⟨hnd, ?_, ?_⟩
    · show (idsOf (mergeAdded store batch)).Nodup
      rw [hids]
      exact (distinctIds_nodup (idsOf batch)).filter _
    · intro a ha hb
      obtain ⟨r, hr, rfl⟩ := List.mem_map.mp hb
      exact hdisj r hr ha
  · rw [List.length_append]
    congr 1
    rw [← hids]
    exact (List.length_map _ _).symm

/-- C2, witnessed: merging a batch that collides on id `a` and adds the
fresh id `b` into the one-row store `[rowA]`. -/
theorem c2_merge_invariants_witness :
    (idsOf [rowA]).Nodup ∧
    merge_new_entries_into_records (some [rowA]) [rowA1, rowB] =
      some [rowA, rowB] :=
  ⟨by decide, (c2_merge_invariants [rowA] [rowA1, rowB] (by decide)).1⟩

end Wordcloud

namespace Wordcloud

/-! ## C10: duplicate ids inside one batch -/

theorem getLast?_cons_or {α : Type} (a : α) (l : List α) :
    (a :: l).getLast? = (l.getLast?).or (some a) := by
  match l with
  | [] => rfl
  | b :: l' =>
    rw [List.getLast?_cons_cons]
    have h : ((b :: l').getLast?).isSome := by
      rw [List.getLast?_isSome]
      simp
    obtain ⟨x, hx⟩ := Option.isSome_iff_exists.mp h
    rw [hx]
    rfl

theorem assocLookup_append (m m' : List (String × Record)) (k : String) :
    assocLookup (m ++ m') k = (assocLookup m k).or (assocLookup m' k) := by
  induction m with
  | nil => rfl
  | cons p rest ih =>
    by_cases h : p.1 = k
    · simp [assocLookup, h]
    · simp [assocLookup, h, ih]

theorem assocLookup_eq_none (m : List (String × Record)) (k : String)
    (h : k ∉ m.map Prod.fst) :
    assocLookup m k = none := by
  induction m with
  | nil => rfl
  | cons p rest ih =>
    have h1 : p.1 ≠ k := fun he => h (by simp [he])
    simp only [assocLookup, if_neg h1]
    exact ih fun hk => h (by simp [hk])

theorem assocLookup_update (m : List (String × Record)) (e : Record) (k : String) :
    assocLookup (m.map fun p => if p.1 = e.id then (p.1, e) else p) k =
      if k = e.id ∧ e.id ∈ m.map Prod.fst then some e else assocLookup m k := by
  induction m with
  | nil => simp [assocLookup]
  | cons q rest ih =>
    rw [List.map_cons]
    by_cases hq : q.1 = e.id
    · rw [if_pos hq]
      by_cases hqk : q.1 = k
      · have hk : k = e.id := hqk ▸ hq
        simp [assocLookup, hqk, hk]
      · have hk : k ≠ e.id := fun hh => hqk (hq.trans hh.symm)
        simp [assocLookup, hqk, ih, hk]
    · rw [if_neg hq]
      by_cases hqk : q.1 = k
      · have hk : k ≠ e.id := fun hh => hq (hqk.trans hh)
        simp [assocLookup, hqk, hk]
      · simp only [assocLookup, if_neg hqk, ih]
        have hiff : (k = e.id ∧ e.id ∈ (q :: rest).map Prod.fst) ↔
            (k = e.id ∧ e.id ∈ rest.map Prod.fst) := by
          constructor
          · rintro ⟨hk, hm⟩
            rw [List.map_cons] at hm
            rcases List.mem_cons.mp hm with h | h
            · exact absurd h.symm hq
            · exact ⟨hk, h⟩
          · rintro ⟨hk, hm⟩
            refine ⟨hk, ?_⟩
            rw [List.map_cons]
            exact List.mem_cons_of_mem _ hm
        rw [if_congr hiff rfl rfl]

theorem assocLookup_dictInsert (m : List (String × Record)) (e : Record) (k : String) :
    assocLookup (dictInsert m e) k = if k = e.id then some e else assocLookup m k := by
  unfold dictInsert
  by_cases hm : e.id ∈ m.map Prod.fst
  · rw [if_pos hm, assocLookup_update]
    by_cases hk : k = e.id
    · rw [if_pos ⟨hk, hm⟩, if_pos hk]
    · rw [if_neg (fun h => hk h.1), if_neg hk]
  · rw [if_neg hm, assocLookup_append]
    by_cases hk : k = e.id
    · rw [assocLookup_eq_none m k (hk ▸ hm), if_pos hk]
      simp [assocLookup, hk.symm]
    · have h2 : assocLookup [(e.id, e)] k = none := by
        have hne : ¬(e.id = k) := fun h => hk h.symm
        simp [assocLookup, hne]
      rw [h2, Option.or_none, if_neg hk]

theorem newById_lookup (batch : List Record) (k : String) :
    assocLookup (newById batch) k = (batch.filter fun r => r.id = k).getLast? := by
  suffices h : ∀ (bs : List Record) (m : List (String × Record)),
      assocLookup (bs.foldl dictInsert m) k =
        ((bs.filter fun r => r.id = k).getLast?).or (assocLookup m k) by
    have h2 := h batch []
    rw [show assocLookup ([] : List (String × Record)) k = none from rfl,
      Option.or_none] at h2
    exact h2
  intro bs
  induction bs with
  | nil => intro m; rfl
  | cons b bs ih =>
    intro m
    rw [List.foldl_cons, ih (dictInsert m b), assocLookup_dictInsert]
    by_cases hb : b.id = k
    · rw [List.filter_cons_of_pos (by simp [hb]), if_pos hb.symm,
        getLast?_cons_or, Option.or_assoc]
      rfl
    · rw [List.filter_cons_of_neg (by simp [hb]), if_neg (fun h => hb h.symm)]

theorem filter_single_of_lookup (m : List (String × Record)) (k : String) (e : Record)
    (hnd : (m.map Prod.fst).Nodup) (hl : assocLookup m k = some e) :
    m.filter (fun p => p.1 = k) = [(k, e)] := by
  induction m with
  | nil => exact absurd hl (by simp [assocLookup])
  | cons q rest ih =>
    rw [List.map_cons] at hnd
    by_cases hq : q.1 = k
    · have he : q.2 = e := by simpa [assocLookup, hq] using hl
      have hknr : k ∉ rest.map Prod.fst := by
        have := (List.nodup_cons.mp hnd).1
        exact hq ▸ this
      have hrest : rest.filter (fun p => p.1 = k) = [] := by
        rw [List.filter_eq_nil_iff]
        intro p hp
        simp only [decide_eq_true_eq]
        intro hpk
        exact hknr (List.mem_map.mpr ⟨p, hp, hpk⟩)
      rw [List.filter_cons_of_pos (by simp [hq]), hrest]
      obtain ⟨q1, q2⟩ := q
      simp only at hq he
      rw [hq, he]
    · have hl' : assocLookup rest k = some e := by simpa [assocLookup, hq] using hl
      rw [List.filter_cons_of_neg (by simp [hq])]
      exact ih (List.nodup_cons.mp hnd).2 hl'

/-- C10: when two or more batch entries share an id `k` that is not in
the store, the merge appends exactly one row with id `k`; the appended
ids stand in batch first-occurrence order (so the row sits where `k`
first occurred among the new ids), and the row's fields are those of the
last batch entry carrying `k` — the dict comprehension keeps the first
position but overwrites the value on every later duplicate. -/
theorem c10_duplicate_batch_ids (store batch : List Record) (k : String)
    (hdup : 2 ≤ (batch.filter fun r => r.id = k).length)
    (hnew : k ∉ idsOf store) :
    ∃ e, merge_new_entries_into_records (some store) batch =
        some (store ++ mergeAdded store batch) ∧
      (mergeAdded store batch).filter (fun r => r.id = k) = [e] ∧
      (batch.filter fun r => r.id = k).getLast? = some e ∧
      idsOf (mergeAdded store batch) =
        (distinctIds (idsOf batch)).filter fun j => j ∉ idsOf store := by
  have hne : (batch.filter fun r => r.id = k) ≠ [] := by
    intro h
    rw [h] at hdup
    simp at hdup
  obtain ⟨e, he⟩ := Option.isSome_iff_exists.mp (List.getLast?_isSome.mpr hne)
  have hlook : assocLookup (newById batch) k = some e := by
    rw [newById_lookup]
    exact he
  have hnodup : ((newById batch).map Prod.fst).Nodup := by
    rw [newById_keys]
    exact distinctIds_nodup _
  have hsingle : (newById batch).filter (fun p => p.1 = k) = [(k, e)] :=
    filter_single_of_lookup _ _ _ hnodup hlook
  refine ⟨e, merge_some store batch, ?_, he, mergeAdded_ids store batch⟩
  unfold mergeAdded
  rw [List.filter_map]
  have hcongr : ((newById batch).filter fun p => p.1 ∉ idsOf store).filter
        ((fun r => decide (r.id = k)) ∘ Prod.snd) =
      ((newById batch).filter fun p => p.1 ∉ idsOf store).filter
        (fun p => p.1 = k) := by
    apply List.filter_congr
    intro p hp
    have hid : p.2.id = p.1 :=
      newById_snd_id batch p (List.mem_of_mem_filter hp)
    simp [Function.comp, hid]
  rw [hcongr, List.filter_filter, show
      ((newById batch).filter fun p =>
          decide (p.1 = k) && decide (p.1 ∉ idsOf store)) =
        ((newById batch).filter fun p =>
          decide (p.1 ∉ idsOf store) && decide (p.1 = k)) from
    List.filter_congr fun p _ => Bool.and_comm _ _, ← List.filter_filter,
    hsingle, List.filter_cons_of_pos (by simpa using hnew)]
  rfl

/-- C10, witnessed: the batch `[rowA1, rowA2]` (both id `a`) merged into
the empty store. -/
theorem c10_duplicate_batch_ids_witness :
    (2 ≤ (([rowA1, rowA2].filter fun r => r.id = "a")).length) ∧
    ∃ e, merge_new_entries_into_records (some []) [rowA1, rowA2] =
        some ([] ++ mergeAdded [] [rowA1, rowA2]) ∧
      (mergeAdded [] [rowA1, rowA2]).filter (fun r => r.id = "a") = [e] ∧
      ([rowA1, rowA2].filter fun r => r.id = "a").getLast? = some e ∧
      idsOf (mergeAdded [] [rowA1, rowA2]) =
        (distinctIds (idsOf [rowA1, rowA2])).filter fun j => j ∉ idsOf [] :=
  ⟨by decide, c10_duplicate_batch_ids [] [rowA1, rowA2] "a" (by decide) (by decide)⟩

end Wordcloud

namespace Wordcloud

/-! ## C5: cache-versus-extraction selection in `main` -/

/-- C5 counterexample: a run with an unreadable (malformed) cache file
and a perfectly usable record store: `load_frequencies` raises inside
`main`, so extraction never runs and nothing is handed on or reported —
against the claim, which promises that for every run either the cache
mapping is used, or extraction runs over the existing store, or the
no-input condition is reported instead of raising. -/
theorem c5_unreadable_cache_raises :
    chooseCounter CacheFile.unreadable (some c5Store) = RunChoice.raised ∧
    load_records_and_build c5Store ≠ [] := by
  refine ⟨rfl, ?_⟩
  decide

/-- C5 amended: for every run whose cache file loads without raising
(missing file, or readable JSON whose `terms` — when the value is an
object at all — form an object `es`), the counter is chosen by exactly
the claimed policy: a non-empty cached mapping is used as is and
extraction never runs; otherwise, if the store file exists, extraction
runs over it and its result is handed on (the run reports no-input when
that result is empty); otherwise the mapping is empty and the run
reports the no-input condition instead of raising. -/
theorem c5_selection_policy (cache : CacheFile) (store : Option (List Record))
    (es : List (String × JVal))
    (h : load_frequencies cache = LoadResult.ok (.dict es)) :
    chooseCounter cache store =
      (if es.isEmpty then
        (match store with
         | some recs =>
           if (load_records_and_build recs).isEmpty then RunChoice.noInput
           else RunChoice.fromStore (load_records_and_build recs)
         | none => RunChoice.noInput)
       else RunChoice.fromCache es) := by
  cases cache with
  | missing =>
    have hes : es = [] := by
      have h2 : JVal.dict [] = JVal.dict es := by
        injection h
      injection h2 with h3
      exact h3.symm
    subst hes
    rfl
  | unreadable => exact absurd h (by intro hh; exact LoadResult.noConfusion hh)
  | parsed d =>
    show (match load_frequencies (CacheFile.parsed d) with
          | LoadResult.error => RunChoice.raised
          | LoadResult.ok j =>
            match termsCounter j with
            | none => RunChoice.raised
            | some es => if es.isEmpty then storeBranch store
                         else RunChoice.fromCache es) = _
    rw [h]
    show (if es.isEmpty then storeBranch store else RunChoice.fromCache es) = _
    cases hes : es.isEmpty with
    | false => simp
    | true => cases store <;> simp [storeBranch]

/-- C5 amended, witnessed: a cache file holding a non-empty `terms`
object is used as the counter without extraction. -/
theorem c5_selection_policy_witness :
    chooseCounter
        (CacheFile.parsed (.dict [("terms", .dict [("alpha", JVal.num 2)])]))
        none =
      RunChoice.fromCache [("alpha", JVal.num 2)] :=
  c5_selection_policy
    (CacheFile.parsed (.dict [("terms", .dict [("alpha", JVal.num 2)])]))
    none [("alpha", JVal.num 2)] rfl

end Wordcloud

namespace Wordcloud

/-! ## C7: idempotence of the tokenizer-plus-filter

The chain: every token the extractor emits is a non-empty run of
`[\w'-]` characters that begins and ends with a word character, has at
least 3 characters, consists of already-lower-cased characters and passes
the stopword/digit filter; space-joining such tokens and re-running the
extractor first splits the text back into exactly those tokens, then
trims nothing, keeps every length, and the filter passes again. -/

theorem asciiLower_idem (c : Nat) : asciiLower (asciiLower c) = asciiLower c := by
  by_cases h : 65 ≤ c ∧ c ≤ 90
  · have h1 : asciiLower c = c + 32 := if_pos h
    rw [h1]
    show (if 65 ≤ c + 32 ∧ c + 32 ≤ 90 then c + 32 + 32 else c + 32) = c + 32
    rw [if_neg (by omega)]
  · have h1 : asciiLower c = c := if_neg h
    rw [h1]
    exact h1

theorem asciiLower_space : asciiLower 32 = 32 := by decide

theorem mem_map_asciiLower_fixed (txt : List Nat) (c : Nat)
    (h : c ∈ txt.map asciiLower) : asciiLower c = c := by
  obtain ⟨c0, _, rfl⟩ := List.mem_map.mp h
  exact asciiLower_idem c0

theorem map_id_of_mem {α : Type} (f : α → α) (l : List α)
    (h : ∀ c ∈ l, f c = c) : l.map f = l := by
  induction l with
  | nil => rfl
  | cons a l ih =>
    rw [List.map_cons, h a (by simp), ih fun c hc => h c (by simp [hc])]

theorem head?_dropWhile {α : Type} (p : α → Bool) (l : List α) (x : α)
    (h : (l.dropWhile p).head? = some x) : p x = false := by
  induction l with
  | nil => exact absurd h (by simp)
  | cons a l ih =>
    rw [List.dropWhile_cons] at h
    by_cases hp : p a
    · rw [if_pos hp] at h
      exact ih h
    · rw [if_neg hp] at h
      have : a = x := by simpa using h
      rw [← this]
      exact Bool.of_not_eq_true hp

theorem mem_dropWhile {α : Type} (p : α → Bool) (l : List α) (c : α)
    (h : c ∈ l.dropWhile p) : c ∈ l := by
  induction l with
  | nil => exact absurd h (by simp)
  | cons a l ih =>
    rw [List.dropWhile_cons] at h
    by_cases hp : p a
    · rw [if_pos hp] at h
      exact List.mem_cons_of_mem a (ih h)
    · rw [if_neg hp] at h
      exact h

theorem getLast?_dropWhile {α : Type} (p : α → Bool) (l : List α)
    (h : l.dropWhile p ≠ []) : (l.dropWhile p).getLast? = l.getLast? := by
  induction l with
  | nil => simp at h
  | cons a l ih =>
    rw [List.dropWhile_cons]
    rw [List.dropWhile_cons] at h
    by_cases hp : p a
    · rw [if_pos hp] at h ⊢
      have hl : l ≠ [] := by
        intro hnil
        rw [hnil] at h
        simp at h
      rw [ih h, getLast?_cons_or]
      obtain ⟨x, hx⟩ := Option.isSome_iff_exists.mp (List.getLast?_isSome.mpr hl)
      rw [hx]
      rfl
    · rw [if_neg hp]

theorem dropWhile_eq_self_of_head {α : Type} (p : α → Bool) (l : List α) (a : α)
    (hh : l.head? = some a) (hp : p a = false) : l.dropWhile p = l := by
  cases l with
  | nil => simp at hh
  | cons b l =>
    have hb : b = a := by simpa using hh
    rw [List.dropWhile_cons, hb, if_neg (by rw [hp]; exact Bool.false_ne_true)]

theorem trimEnds_head_word (r : List Nat) (a : Nat)
    (h : (trimEnds r).head? = some a) : isWordChar a = true := by
  unfold trimEnds at h
  rw [List.head?_reverse] at h
  have hne : (r.dropWhile fun c => !isWordChar c).reverse.dropWhile
      (fun c => !isWordChar c) ≠ [] := by
    intro hnil
    rw [hnil] at h
    simp at h
  rw [getLast?_dropWhile _ _ hne, List.getLast?_reverse] at h
  have := head?_dropWhile _ _ _ h
  simpa using this

theorem trimEnds_getLast_word (r : List Nat) (b : Nat)
    (h : (trimEnds r).getLast? = some b) : isWordChar b = true := by
  unfold trimEnds at h
  rw [List.getLast?_reverse] at h
  have := head?_dropWhile _ _ _ h
  simpa using this

theorem trimEnds_subset (r : List Nat) (c : Nat) (h : c ∈ trimEnds r) : c ∈ r := by
  unfold trimEnds at h
  rw [List.mem_reverse] at h
  have h1 := mem_dropWhile _ _ _ h
  rw [List.mem_reverse] at h1
  exact mem_dropWhile _ _ _ h1

theorem trimEnds_eq_self (r : List Nat) (a b : Nat)
    (ha : r.head? = some a) (hwa : isWordChar a = true)
    (hb : r.getLast? = some b) (hwb : isWordChar b = true) :
    trimEnds r = r := by
  unfold trimEnds
  rw [dropWhile_eq_self_of_head _ r a ha (by simp [hwa])]
  rw [dropWhile_eq_self_of_head _ r.reverse b (by rw [List.head?_reverse]; exact hb)
    (by simp [hwb])]
  exact List.reverse_reverse r

end Wordcloud

namespace Wordcloud

theorem runsAux_append_token (t : List Nat) :
    ∀ (rest acc : List Nat), (∀ c ∈ t, isTokenChar c = true) →
      runsAux (t ++ rest) acc = runsAux rest (t.reverse ++ acc) := by
  induction t with
  | nil => intro rest acc _; rfl
  | cons c t ih =>
    intro rest acc h
    rw [List.cons_append]
    show (if isTokenChar c then runsAux (t ++ rest) (c :: acc)
          else if acc.isEmpty then runsAux (t ++ rest) []
          else acc.reverse :: runsAux (t ++ rest) []) = _
    rw [if_pos (h c (by simp))]
    rw [ih rest (c :: acc) fun d hd => h d (by simp [hd])]
    rw [List.reverse_cons, List.append_assoc]
    rfl

theorem runsAux_mem_token (s : List Nat) :
    ∀ acc : List Nat, (∀ c ∈ acc, isTokenChar c = true) →
      ∀ r ∈ runsAux s acc, ∀ c ∈ r, isTokenChar c = true := by
  induction s with
  | nil =>
    intro acc hacc r hr c hc
    unfold runsAux at hr
    by_cases h : acc.isEmpty
    · rw [if_pos h] at hr
      exact absurd hr (by simp)
    · rw [if_neg h] at hr
      rcases List.mem_singleton.mp hr with rfl
      exact hacc c (List.mem_reverse.mp hc)
  | cons a s ih =>
    intro acc hacc r hr c hc
    unfold runsAux at hr
    by_cases ht : isTokenChar a
    · rw [if_pos ht] at hr
      refine ih (a :: acc) ?_ r hr c hc
      intro d hd
      rcases List.mem_cons.mp hd with rfl | hd
      · exact ht
      · exact hacc d hd
    · rw [if_neg ht] at hr
      by_cases he : acc.isEmpty
      · rw [if_pos he] at hr
        exact ih [] (by simp) r hr c hc
      · rw [if_neg he] at hr
        rcases List.mem_cons.mp hr with rfl | hr
        · exact hacc c (List.mem_reverse.mp hc)
        · exact ih [] (by simp) r hr c hc

theorem runsAux_mem_source (s : List Nat) :
    ∀ acc : List Nat, ∀ r ∈ runsAux s acc, ∀ c ∈ r, c ∈ s ∨ c ∈ acc := by
  induction s with
  | nil =>
    intro acc r hr c hc
    unfold runsAux at hr
    by_cases h : acc.isEmpty
    · rw [if_pos h] at hr
      exact absurd hr (by simp)
    · rw [if_neg h] at hr
      rcases List.mem_singleton.mp hr with rfl
      exact Or.inr (List.mem_reverse.mp hc)
  | cons a s ih =>
    intro acc r hr c hc
    unfold runsAux at hr
    by_cases ht : isTokenChar a
    · rw [if_pos ht] at hr
      rcases ih (a :: acc) r hr c hc with h | h
      · exact Or.inl (List.mem_cons_of_mem a h)
      · rcases List.mem_cons.mp h with rfl | h
        · exact Or.inl (by simp)
        · exact Or.inr h
    · rw [if_neg ht] at hr
      by_cases he : acc.isEmpty
      · rw [if_pos he] at hr
        rcases ih [] r hr c hc with h | h
        · exact Or.inl (List.mem_cons_of_mem a h)
        · exact absurd h (by simp)
      · rw [if_neg he] at hr
        rcases List.mem_cons.mp hr with rfl | hr
        · exact Or.inr (List.mem_reverse.mp hc)
        · rcases ih [] r hr c hc with h | h
          · exact Or.inl (List.mem_cons_of_mem a h)
          · exact absurd h (by simp)

theorem findTokens_shape (s : List Nat) (t : List Nat) (ht : t ∈ findTokens s) :
    3 ≤ t.length ∧ (∀ c ∈ t, isTokenChar c = true ∧ c ∈ s) ∧
      (∃ a, t.head? = some a ∧ isWordChar a = true) ∧
      (∃ b, t.getLast? = some b ∧ isWordChar b = true) := by
  obtain ⟨r, hr, hgate⟩ := List.mem_filterMap.mp ht
  by_cases hlen : 3 ≤ (trimEnds r).length
  · rw [if_pos hlen] at hgate
    have hrt : trimEnds r = t := by simpa using hgate
    subst hrt
    have hne : trimEnds r ≠ [] := by
      intro h
      rw [h] at hlen
      simp at hlen
    obtain ⟨a, ha⟩ := Option.isSome_iff_exists.mp
      (by rw [List.head?_isSome]; exact hne)
    obtain ⟨b, hb⟩ := Option.isSome_iff_exists.mp
      (by rw [List.getLast?_isSome]; exact hne)
    refine ⟨hlen, ?_, ⟨a, ha, trimEnds_head_word r a ha⟩,
      ⟨b, hb, trimEnds_getLast_word r b hb⟩⟩
    intro c hc
    have hcr : c ∈ r := trimEnds_subset r c hc
    constructor
    · exact runsAux_mem_token s [] (by simp) r hr c hcr
    · rcases runsAux_mem_source s [] r hr c hcr with h | h
      · exact h
      · exact absurd h (by simp)
  · rw [if_neg hlen] at hgate
    exact absurd hgate (by simp)

end Wordcloud

namespace Wordcloud

theorem runsAux_cons (c : Nat) (s acc : List Nat) :
    runsAux (c :: s) acc =
      if isTokenChar c then runsAux s (c :: acc)
      else if acc.isEmpty then runsAux s [] else acc.reverse :: runsAux s [] := rfl

theorem mem_joinSpace (ts : List (List Nat)) (c : Nat) (h : c ∈ joinSpace ts) :
    c = 32 ∨ ∃ t ∈ ts, c ∈ t := by
  induction ts with
  | nil => exact absurd h (by simp [joinSpace])
  | cons t ts ih =>
    cases ts with
    | nil =>
      right
      exact ⟨t, by simp, by simpa [joinSpace] using h⟩
    | cons t' ts' =>
      rw [show joinSpace (t :: t' :: ts') = t ++ 32 :: joinSpace (t' :: ts') from rfl]
        at h
      rcases List.mem_append.mp h with h | h
      · exact Or.inr ⟨t, by simp, h⟩
      · rcases List.mem_cons.mp h with rfl | h
        · exact Or.inl rfl
        · rcases ih h with h | ⟨u, hu, hc⟩
          · exact Or.inl h
          · exact Or.inr ⟨u, by simp [hu], hc⟩

theorem tokenRuns_joinSpace (ts : List (List Nat))
    (h : ∀ t ∈ ts, t ≠ [] ∧ ∀ c ∈ t, isTokenChar c = true) :
    tokenRuns (joinSpace ts) = ts := by
  induction ts with
  | nil => rfl
  | cons t ts ih =>
    obtain ⟨hne, htok⟩ := h t (by simp)
    cases ts with
    | nil =>
      show runsAux (joinSpace [t]) [] = [t]
      rw [show joinSpace [t] = t from rfl]
      rw [show runsAux t [] = runsAux (t ++ []) [] from by rw [List.append_nil]]
      rw [runsAux_append_token t [] [] htok]
      show (if (t.reverse ++ []).isEmpty then []
            else [(t.reverse ++ []).reverse]) = [t]
      rw [List.append_nil]
      rw [if_neg (by simpa [List.isEmpty_iff] using hne)]
      rw [List.reverse_reverse]
    | cons t' ts' =>
      show runsAux (joinSpace (t :: t' :: ts')) [] = t :: t' :: ts'
      rw [show joinSpace (t :: t' :: ts') = t ++ 32 :: joinSpace (t' :: ts')
        from rfl]
      rw [runsAux_append_token t (32 :: joinSpace (t' :: ts')) [] htok]
      rw [runsAux_cons]
      rw [if_neg (by decide), List.append_nil]
      rw [if_neg (by simpa [List.isEmpty_iff] using hne)]
      rw [List.reverse_reverse]
      have ihr := ih fun u hu => h u (by simp [hu])
      rw [show runsAux (joinSpace (t' :: ts')) [] = tokenRuns (joinSpace (t' :: ts'))
        from rfl, ihr]

theorem filterMap_eq_self {α : Type} (f : α → Option α) (l : List α)
    (h : ∀ a ∈ l, f a = some a) : l.filterMap f = l := by
  induction l with
  | nil => rfl
  | cons a l ih =>
    rw [List.filterMap_cons, h a (by simp), ih fun b hb => h b (by simp [hb])]

theorem findTokens_joinSpace (ts : List (List Nat))
    (h : ∀ t ∈ ts, 3 ≤ t.length ∧ (∀ c ∈ t, isTokenChar c = true) ∧
      (∃ a, t.head? = some a ∧ isWordChar a = true) ∧
      (∃ b, t.getLast? = some b ∧ isWordChar b = true)) :
    findTokens (joinSpace ts) = ts := by
  unfold findTokens
  rw [tokenRuns_joinSpace ts fun t ht => ⟨by
      intro hnil
      have := (h t ht).1
      rw [hnil] at this
      simp at this, (h t ht).2.1⟩]
  apply filterMap_eq_self
  intro t ht
  obtain ⟨hlen, _, ⟨a, ha, hwa⟩, ⟨b, hb, hwb⟩⟩ := h t ht
  have htrim : trimEnds t = t := trimEnds_eq_self t a b ha hwa hb hwb
  simp only [htrim]
  rw [if_pos hlen]

/-- C7: extraction is idempotent.  Re-running the tokenizer-plus-filter
(lower-case, word-boundary match of 3 or more `[\w'-]` characters,
drop purely numeric tokens and stopwords) over the space-joined text of
the extractor's own output tokens returns exactly the same token list —
every emitted token re-tokenizes to itself and survives the filters
again — and hence builds the identical term-frequency mapping. -/
theorem c7_extraction_idempotent (txt : List Nat) :
    extractTokens (joinSpace (extractTokens txt)) = extractTokens txt ∧
    buildCounter (extractTokens (joinSpace (extractTokens txt))) =
      buildCounter (extractTokens txt) := by
  have hmain : extractTokens (joinSpace (extractTokens txt)) = extractTokens txt := by
    have hfind : ∀ t ∈ extractTokens txt, t ∈ findTokens (txt.map asciiLower) :=
      fun t ht => List.mem_of_mem_filter ht
    have hkeep : ∀ t ∈ extractTokens txt, keepToken t = true :=
      fun t ht => List.of_mem_filter ht
    have hshape := fun t ht => findTokens_shape (txt.map asciiLower) t (hfind t ht)
    have hlower : ∀ c ∈ joinSpace (extractTokens txt), asciiLower c = c := by
      intro c hc
      rcases mem_joinSpace _ c hc with rfl | ⟨t, ht, hct⟩
      · exact asciiLower_space
      · exact mem_map_asciiLower_fixed txt c ((hshape t ht).2.1 c hct).2
    show (findTokens ((joinSpace (extractTokens txt)).map asciiLower)).filter
        keepToken = extractTokens txt
    rw [map_id_of_mem asciiLower _ hlower]
    rw [findTokens_joinSpace (extractTokens txt) fun t ht =>
      ⟨(hshape t ht).1, fun c hc => ((hshape t ht).2.1 c hc).1,
        (hshape t ht).2.2.1, (hshape t ht).2.2.2⟩]
    exact List.filter_eq_self.mpr hkeep
  exact ⟨hmain, by rw [hmain]⟩

end Wordcloud
